import Mathlib

/-!
Verification of the Tier-1 pre-fill engine (`src/lib/prefill-types.ts`) of the
meaning-map-editor repository: a deterministic mapping from BHSA morphological
feature records to Tripod Ontology fields, together with the two whole-span
passes (reference-status assignment and participant-registry construction).

The TypeScript source is embedded shallowly: interfaces become structures,
functions become Lean functions, the in-place mutation of
`assignReferenceStatus` becomes explicit state passing (an association list
standing for the JS `Map`, which is only ever extended with keys not yet
present, and the registry `Map` iterated in insertion order becomes a list
extended at the back).  JS string operations are modelled by their Lean
counterparts (`trim`, `toLower`); the truthiness of `s` for a JS string is
`s ≠ ""`.
-/

set_option autoImplicit false

namespace MeaningMap

/-- Word-level features from BHSA (interface `BHSAWord`). -/
structure BHSAWord where
  word_id : Nat
  text_utf8 : String
  lex : String
  lex_utf8 : String
  gloss : String
  sp : String
  pdp : String
  gn : String
  nu : String
  ps : String
  vs : String
  vt : String
  st : String
  ls : String
  nametype : String
  prs : String
  prs_gn : String
  prs_nu : String
  prs_ps : String
  deriving Repr, DecidableEq

/-- Enriched phrase with word-level data (interface `BHSAEnrichedPhrase`). -/
structure BHSAEnrichedPhrase where
  phrase_id : Nat
  function : String
  typ : String
  rela : String
  words : List BHSAWord
  deriving Repr, DecidableEq

/-- Enriched clause with phrase and word data (interface `BHSAEnrichedClause`). -/
structure BHSAEnrichedClause where
  clause_id : Nat
  typ : String
  txt : String
  rela : String
  domain : String
  kind : String
  hebrew_text : String
  transliteration : String
  gloss : String
  phrases : List BHSAEnrichedPhrase
  words : List BHSAWord
  deriving Repr, DecidableEq

/-- Enriched verse (interface `BHSAEnrichedVerse`). -/
structure BHSAEnrichedVerse where
  chapter : Nat
  verse : Nat
  clauses : List BHSAEnrichedClause
  deriving Repr, DecidableEq

/-- A confidence-tagged inferred value (interface `PrefillValue<T>`), with the
source and confidence enums kept as the literal strings of the source. -/
structure PrefillValue (T : Type) where
  value : T
  source : String
  confidence : String
  bhsa_basis : Option String
  deriving Repr, DecidableEq

/-- A candidate participant mention (interface `PrefillParticipant`). -/
structure PrefillParticipant where
  id : String
  label : String
  label_hebrew : String
  type : PrefillValue String
  quantity : PrefillValue String
  reference_status : PrefillValue String
  semantic_role : PrefillValue String
  word_id : Nat
  phrase_function : String
  deriving Repr, DecidableEq

/-- Interface `PrefillSemanticRole`. -/
structure PrefillSemanticRole where
  role : String
  filler : String
  filler_hebrew : String
  source : String
  confidence : String
  phrase_function : String
  deriving Repr, DecidableEq

/-- Interface `PrefillEventCore`. -/
structure PrefillEventCore where
  lexeme : String
  lexeme_utf8 : String
  gloss : String
  verbal_stem : String
  verbal_tense : String
  deriving Repr, DecidableEq

/-- Interface `PrefillClauseResult`. -/
structure PrefillClauseResult where
  clause_id : Nat
  clause_type : PrefillValue String
  event_category : Option (PrefillValue String)
  event_core : Option PrefillEventCore
  semantic_roles : List PrefillSemanticRole
  participants : List PrefillParticipant
  reality : PrefillValue String
  polarity : PrefillValue String
  aspect : Option (PrefillValue String)
  time_frame : Option (PrefillValue String)
  volitionality : Option (PrefillValue String)
  discourse_function : Option (PrefillValue String)
  register : PrefillValue String
  deriving Repr, DecidableEq

/-- Interface `PrefillPericope`. -/
structure PrefillPericope where
  book : String
  start_chapter : Nat
  start_verse : Nat
  end_chapter : Nat
  end_verse : Nat
  clauses : List PrefillClauseResult
  participant_registry : List PrefillParticipant
  deriving Repr, DecidableEq

/-- Helper `pv`: create a PrefillValue with source `BHSA_AUTO`. -/
def pv {T : Type} (value : T) (confidence : String) (basis : String) :
    PrefillValue T :=
  { value := value, source := "BHSA_AUTO", confidence := confidence,
    bhsa_basis := some basis }

/-- The fixed verb lexeme → event category table `VERB_EVENT_CATEGORY`. -/
def VERB_EVENT_CATEGORY (lex : String) : Option String :=
  match lex with
  | "HLK[" => some "MOTION"
  | "BWJ>[" => some "MOTION"
  | "BW>[" => some "MOTION"
  | ">WB[" => some "MOTION"
  | "CWB[" => some "MOTION"
  | "JY>[" => some "MOTION"
  | "<LH[" => some "MOTION"
  | "JRD[" => some "MOTION"
  | "NWS[" => some "MOTION"
  | "RWY[" => some "MOTION"
  | "BRX[" => some "MOTION"
  | "NTN[" => some "TRANSFER"
  | "LQX[" => some "TRANSFER"
  | "NC>[" => some "TRANSFER"
  | ">MR[" => some "SPEECH"
  | "DBR[" => some "SPEECH"
  | "QR>[" => some "SPEECH"
  | "SPR[" => some "SPEECH"
  | "NGD[" => some "SPEECH"
  | "CMW[" => some "INTERNAL"
  | "C>L[" => some "SPEECH"
  | "R>H[" => some "INTERNAL"
  | "JD<[" => some "INTERNAL"
  | "HJH[" => some "STATE"
  | "JCB[" => some "STATE"
  | "GWR[" => some "STATE"
  | "<MD[" => some "STATE"
  | "CKB[" => some "STATE"
  | "MWT[" => some "PROCESS"
  | "JLD[" => some "PROCESS"
  | "XJH[" => some "STATE"
  | ">KL[" => some "ACTION"
  | "CTH[" => some "ACTION"
  | "MLK[" => some "SOCIAL"
  | "CPV[" => some "SOCIAL"
  | "PQD[" => some "SOCIAL"
  | "BR>[" => some "ACTION"
  | "<FH[" => some "ACTION"
  | "BNH[" => some "ACTION"
  | "LXM[" => some "ACTION"
  | "NKH[" => some "ACTION"
  | "HRG[" => some "ACTION"
  | _ => none

/-- The phrase function → (role, confidence) table `PHRASE_ROLE_MAP`. -/
def PHRASE_ROLE_MAP (fn : String) : Option (String × String) :=
  match fn with
  | "Subj" => some ("initiator", "medium")
  | "Objc" => some ("affected", "medium")
  | "Loca" => some ("location", "high")
  | "Time" => some ("time", "high")
  | "Cmpl" => some ("not_specified", "low")
  | "Adju" => some ("manner", "low")
  | "PreC" => some ("not_specified", "low")
  | _ => none

/-- The clause type → (discourse function, confidence) table
`DISCOURSE_FUNCTION_MAP`. -/
def DISCOURSE_FUNCTION_MAP (typ : String) : Option (String × String) :=
  match typ with
  | "Way0" => some ("mainline", "high")
  | "WayX" => some ("mainline", "high")
  | "NmCl" => some ("background", "high")
  | "InfC" => some ("background", "high")
  | "Ptcp" => some ("background", "medium")
  | "xQt0" => some ("background", "medium")
  | "XQtl" => some ("background", "medium")
  | "ZQt0" => some ("background", "medium")
  | "Ellp" => some ("background", "low")
  | _ => none

/-- The fixed negation-particle set `NEGATION_LEXEMES`. -/
def NEGATION_LEXEMES : List String := ["L>", ">L", "BL", ">JN", "LBL"]

/-- JS `w.lex.replace(/[\[\]]/g, "")`: drop all square brackets. -/
def stripBrackets (s : String) : String :=
  String.mk (s.data.filter (fun c => !(c == '[' || c == ']')))

/-- JS `String.prototype.includes` with a one-character needle. -/
def jsIncludesChar (s : String) (c : Char) : Bool := s.data.contains c

/-- `findHeadNoun`: first content word (noun, proper noun, adjective,
pronoun) of a phrase. -/
def findHeadNoun (phrase : BHSAEnrichedPhrase) : Option BHSAWord :=
  phrase.words.find? (fun w =>
    w.sp == "subs" || w.sp == "nmpr" || w.sp == "adjv" ||
    w.sp == "prps" || w.sp == "prde")

/-- `inferClauseType`: Layer-3 clause type routing. -/
def inferClauseType (clause : BHSAEnrichedClause) : PrefillValue String :=
  if clause.typ == "NmCl" || clause.kind == "NC" || clause.kind == "AjCl" then
    match clause.phrases.find? (fun p => p.function == "PreC" || p.function == "PreS") with
    | none => pv "classification" "medium" ("typ=" ++ clause.typ)
    | some predPhrase =>
      match findHeadNoun predPhrase with
      | none => pv "classification" "medium" ("typ=" ++ clause.typ)
      | some mainWord =>
        if mainWord.sp == "nmpr" then
          pv "identification" "high" "PreC head is nmpr"
        else if mainWord.sp == "adjv" then
          pv "attribution" "high" "PreC head is adjv"
        else if mainWord.nametype == "gntl" then
          pv "classification" "high" "PreC head is gntl"
        else
          pv "classification" "medium" ("typ=" ++ clause.typ ++ " default")
  else if clause.words.any (fun w => w.sp == "verb" && w.lex == "HJH[") then
    if clause.phrases.any (fun p => p.function == "Subj") then
      pv "existential" "medium" "HJH + Subj"
    else
      pv "event" "medium" "HJH without Subj — possible META"
  else
    pv "event" "high" "verbal clause"

/-- `isParticipantWord`. -/
def isParticipantWord (w : BHSAWord) : Bool :=
  w.sp == "subs" || w.sp == "nmpr" || w.sp == "prps" || w.sp == "prde"

/-- `inferParticipantType`. -/
def inferParticipantType (w : BHSAWord) : PrefillValue String :=
  if w.nametype == "pers" then pv "person" "high" "nametype=pers"
  else if w.nametype == "topo" then pv "place" "high" "nametype=topo"
  else if w.nametype == "gntl" then pv "group" "high" "nametype=gntl"
  else if w.nametype == "ppde" then pv "group" "medium" "nametype=ppde"
  else if w.sp == "nmpr" then pv "person" "medium" "sp=nmpr, no nametype"
  else if w.sp == "prps" then pv "person" "medium" "sp=prps"
  else pv "not_specified" "low" ("sp=" ++ w.sp)

/-- `inferQuantity`. -/
def inferQuantity (w : BHSAWord) : PrefillValue String :=
  match w.nu with
  | "sg" => pv "one" "high" "nu=sg"
  | "du" => pv "two" "high" "nu=du"
  | "pl" => pv "many" "medium" "nu=pl"
  | other => pv "not_specified" "low" ("nu=" ++ other)

/-- `inferSuffixQuantity`. -/
def inferSuffixQuantity (w : BHSAWord) : PrefillValue String :=
  match w.prs_nu with
  | "sg" => pv "one" "high" "prs_nu=sg"
  | "du" => pv "two" "high" "prs_nu=du"
  | "pl" => pv "many" "medium" "prs_nu=pl"
  | other => pv "not_specified" "low" ("prs_nu=" ++ other)

/-- `inferRoleFromPhrase`. -/
def inferRoleFromPhrase (phrase : BHSAEnrichedPhrase) : PrefillValue String :=
  match PHRASE_ROLE_MAP phrase.function with
  | some m => pv m.1 m.2 ("phrase.function=" ++ phrase.function)
  | none => pv "not_specified" "low" ("no mapping for " ++ phrase.function)

/-- Auxiliary for `describeSuffix`: JS `.replace(/\s+/g, " ")`, collapsing
every whitespace run to a single space.  The Bool records whether the
previous character was whitespace. -/
def squeezeWs : Bool → List Char → List Char
  | _, [] => []
  | prev, c :: cs =>
    if c.isWhitespace then
      if prev then squeezeWs true cs else ' ' :: squeezeWs true cs
    else
      c :: squeezeWs false cs

/-- `describeSuffix`. -/
def describeSuffix (w : BHSAWord) : String :=
  let person := if w.prs_ps == "p1" then "1st" else if w.prs_ps == "p2" then "2nd" else "3rd"
  let gender := if w.prs_gn == "m" then "masc" else if w.prs_gn == "f" then "fem" else ""
  let number := if w.prs_nu == "sg" then "sg" else if w.prs_nu == "pl" then "pl" else ""
  let raw := "[suffix: " ++ person ++ " " ++ gender ++ " " ++ number ++ "]"
  (String.mk (squeezeWs false raw.data)).trim

/-- The set `participantFunctions` of nominal phrase functions carrying
participants. -/
def participantFunctions : List String :=
  ["Subj", "Objc", "Cmpl", "PreC", "PreS", "ExsS", "IntS"]

/-- The within-clause deduplication key `word.lex_utf8 || word.lex ||
word.gloss` (JS falsiness of the empty string made explicit). -/
def participantKeyOfWord (w : BHSAWord) : String :=
  if w.lex_utf8 ≠ "" then w.lex_utf8 else if w.lex ≠ "" then w.lex else w.gloss

/-- The participant record pushed for a free-standing participant word. -/
def mkWordParticipant (phrase : BHSAEnrichedPhrase) (w : BHSAWord) :
    PrefillParticipant :=
  { id := "p_" ++ toString w.word_id,
    label := if w.gloss ≠ "" then w.gloss else w.lex,
    label_hebrew := if w.lex_utf8 ≠ "" then w.lex_utf8 else w.text_utf8,
    type := inferParticipantType w,
    quantity := inferQuantity w,
    reference_status := pv "unset" "low" "pending pericope pass",
    semantic_role := inferRoleFromPhrase phrase,
    word_id := w.word_id,
    phrase_function := phrase.function }

/-- The participant record pushed for a pronominal suffix. -/
def mkSuffixParticipant (phrase : BHSAEnrichedPhrase) (w : BHSAWord) :
    PrefillParticipant :=
  { id := "ps_" ++ toString w.word_id,
    label := describeSuffix w,
    label_hebrew := w.prs,
    type := pv "person" "medium" "pronominal suffix",
    quantity := inferSuffixQuantity w,
    reference_status := pv "unset" "low" "pending pericope pass",
    semantic_role := pv "not_specified" "low" "suffix — role unclear",
    word_id := w.word_id,
    phrase_function := phrase.function }

/-- First inner loop of `extractParticipants`: free-standing participant
words of one phrase, threading the clause-level `seen` set. -/
def extractWordLoop (phrase : BHSAEnrichedPhrase) :
    List String → List BHSAWord → List PrefillParticipant × List String
  | seen, [] => ([], seen)
  | seen, w :: ws =>
    if isParticipantWord w then
      let key := participantKeyOfWord w
      if seen.contains key then extractWordLoop phrase seen ws
      else
        let r := extractWordLoop phrase (key :: seen) ws
        (mkWordParticipant phrase w :: r.1, r.2)
    else extractWordLoop phrase seen ws

/-- Second inner loop of `extractParticipants`: pronominal suffixes of one
phrase (`word.prs && word.prs !== "absent" && word.prs !== "n/a"`). -/
def extractSuffixLoop (phrase : BHSAEnrichedPhrase) :
    List String → List BHSAWord → List PrefillParticipant × List String
  | seen, [] => ([], seen)
  | seen, w :: ws =>
    if w.prs ≠ "" ∧ w.prs ≠ "absent" ∧ w.prs ≠ "n/a" then
      let key := "suffix_" ++ toString w.word_id
      if seen.contains key then extractSuffixLoop phrase seen ws
      else
        let r := extractSuffixLoop phrase (key :: seen) ws
        (mkSuffixParticipant phrase w :: r.1, r.2)
    else extractSuffixLoop phrase seen ws

/-- Outer loop of `extractParticipants` over the clause's phrases. -/
def extractPhrasesLoop :
    List String → List BHSAEnrichedPhrase → List PrefillParticipant
  | _, [] => []
  | seen, ph :: rest =>
    if participantFunctions.contains ph.function then
      let r1 := extractWordLoop ph seen ph.words
      let r2 := extractSuffixLoop ph r1.2 ph.words
      r1.1 ++ r2.1 ++ extractPhrasesLoop r2.2 rest
    else extractPhrasesLoop seen rest

/-- `extractParticipants`: Layer-1 participant extraction for one clause. -/
def extractParticipants (clause : BHSAEnrichedClause) : List PrefillParticipant :=
  extractPhrasesLoop [] clause.phrases

/-- `extractEventCore`: locate the main verb (Pred/PreO phrase first, then
any verb in the clause) and build the event core, or `null`. -/
def extractEventCore (clause : BHSAEnrichedClause) : Option PrefillEventCore :=
  let predPhrase := clause.phrases.find? (fun p =>
    p.function == "Pred" || p.function == "PreO")
  let fromPred : Option BHSAWord :=
    match predPhrase with
    | some p => p.words.find? (fun w => w.sp == "verb")
    | none => none
  let mainVerb : Option BHSAWord :=
    match fromPred with
    | some w => some w
    | none => clause.words.find? (fun w => w.sp == "verb")
  match mainVerb with
  | none => none
  | some v =>
    some { lexeme := v.lex, lexeme_utf8 := v.lex_utf8, gloss := v.gloss,
           verbal_stem := if v.vs ≠ "" then v.vs else "NA",
           verbal_tense := if v.vt ≠ "" then v.vt else "NA" }

/-- `inferEventCategory`: table lookup with the `HJH[` special case. -/
def inferEventCategory (clause : BHSAEnrichedClause)
    (eventCore : Option PrefillEventCore) : Option (PrefillValue String) :=
  match eventCore with
  | none => none
  | some core =>
    match VERB_EVENT_CATEGORY core.lexeme with
    | none => none
    | some category =>
      if core.lexeme == "HJH[" then
        if clause.typ == "Way0" ∧ clause.phrases.any (fun p => p.function == "Time") then
          some (pv "META" "medium" "HJH + Way0 + Time phrase → META frame-opener")
        else
          some (pv "STATE" "medium" "HJH default → STATE")
      else
        some (pv category "high" ("VERB_EVENT_CATEGORY[" ++ core.lexeme ++ "]"))

/-- `extractSemanticRoles`. -/
def extractSemanticRoles (clause : BHSAEnrichedClause) : List PrefillSemanticRole :=
  clause.phrases.foldr (fun ph acc =>
    if ph.function == "Pred" || ph.function == "PreO" ||
       ph.function == "Conj" || ph.function == "NA" then acc
    else
      match PHRASE_ROLE_MAP ph.function with
      | none => acc
      | some m =>
        let gloss := String.intercalate " "
          ((ph.words.map (fun w => w.gloss)).filter (fun s => s ≠ ""))
        let hebrew := String.intercalate " " (ph.words.map (fun w => w.text_utf8))
        { role := m.1,
          filler := if gloss ≠ "" then gloss else "[no gloss]",
          filler_hebrew := hebrew,
          source := "BHSA_AUTO",
          confidence := m.2,
          phrase_function := ph.function } :: acc) []

/-- `inferAspect`. -/
def inferAspect (verb : BHSAWord) : PrefillValue String :=
  match verb.vt with
  | "perf" => pv "completed" "medium" "vt=perf"
  | "wayq" => pv "completed" "high" "vt=wayq"
  | "impf" => pv "not_specified" "low" "vt=impf — ambiguous"
  | "ptca" => pv "ongoing" "medium" "vt=ptca"
  | "impv" => pv "not_specified" "low" "vt=impv — commands lack aspect"
  | "infc" => pv "not_specified" "low" "vt=infc"
  | "infa" => pv "not_specified" "low" "vt=infa"
  | other => pv "not_specified" "low" ("vt=" ++ other)

/-- `inferTimeFrame`.  JS `txt.charAt(0) === "N"` is `txt.data.head? = some N`
(charAt of the empty string is the empty string); `txt.includes("Q")` with the
one-character needle is `String.contains txt Q`. -/
def inferTimeFrame (clause : BHSAEnrichedClause) (verb : Option BHSAWord) :
    Option (PrefillValue String) :=
  if clause.txt.data.head? == some 'N' then
    some (pv "retrospective" "high" "txt starts with N (narrative)")
  else if (match verb with | some v => v.vt == "impv" | none => false) then
    some (pv "prospective" "high" "vt=impv")
  else if jsIncludesChar clause.txt 'Q' then
    some (pv "not_specified" "low" "txt includes Q — ambiguous")
  else
    none

/-- `inferVolitionality`. -/
def inferVolitionality (verb : BHSAWord) : Option (PrefillValue String) :=
  if verb.vt == "impv" then some (pv "volitional" "high" "vt=impv") else none

/-- The record returned by `inferModifiers` (interface `ModifierResult`). -/
structure ModifierResult where
  reality : PrefillValue String
  polarity : PrefillValue String
  aspect : Option (PrefillValue String)
  time_frame : Option (PrefillValue String)
  volitionality : Option (PrefillValue String)
  deriving Repr, DecidableEq

/-- `inferModifiers`: Layer-4 event modifiers. -/
def inferModifiers (clause : BHSAEnrichedClause) : ModifierResult :=
  let mainVerb := clause.words.find? (fun w => w.sp == "verb")
  let hasNegation := clause.words.any (fun w =>
    NEGATION_LEXEMES.contains (stripBrackets w.lex))
  { reality := pv "actual" "medium" "narrative default",
    polarity :=
      if hasNegation then pv "negative" "high" "negation particle found"
      else pv "positive" "high" "no negation particle",
    aspect := match mainVerb with | some v => some (inferAspect v) | none => none,
    time_frame := inferTimeFrame clause mainVerb,
    volitionality := match mainVerb with | some v => inferVolitionality v | none => none }

/-- `inferDiscourseFunction`. -/
def inferDiscourseFunction (clause : BHSAEnrichedClause) :
    Option (PrefillValue String) :=
  match DISCOURSE_FUNCTION_MAP clause.typ with
  | some m => some (pv m.1 m.2 ("DISCOURSE_MAP[" ++ clause.typ ++ "]"))
  | none => none

/-- `inferRegister`. -/
def inferRegister (clause : BHSAEnrichedClause) : PrefillValue String :=
  if jsIncludesChar clause.txt 'Q' then pv "dialogue" "high" "txt includes Q"
  else if jsIncludesChar clause.txt 'D' then pv "formal" "medium" "txt includes D"
  else pv "narrative" "high" ("txt=" ++ clause.txt ++ " (narrative default)")

/-- `prefillClause`: the per-clause workhorse. -/
def prefillClause (clause : BHSAEnrichedClause) : PrefillClauseResult :=
  let eventCore := extractEventCore clause
  let modifiers := inferModifiers clause
  { clause_id := clause.clause_id,
    clause_type := inferClauseType clause,
    event_category := inferEventCategory clause eventCore,
    event_core := eventCore,
    semantic_roles := extractSemanticRoles clause,
    participants := extractParticipants clause,
    reality := modifiers.reality,
    polarity := modifiers.polarity,
    aspect := modifiers.aspect,
    time_frame := modifiers.time_frame,
    volitionality := modifiers.volitionality,
    discourse_function := inferDiscourseFunction clause,
    register := inferRegister clause }

/-- JS `String.prototype.toLowerCase`, modelled character-wise. -/
def jsToLower (s : String) : String := String.mk (s.data.map Char.toLower)

/-- JS `String.prototype.trim`: drop leading and trailing whitespace. -/
def jsTrim (s : String) : String :=
  String.mk (((s.data.dropWhile Char.isWhitespace).reverse.dropWhile
    Char.isWhitespace).reverse)

/-- `normalizeParticipantKey`: the Identity Key of a participant
(`(p.label_hebrew || p.label).trim().toLowerCase()`). -/
def normalizeParticipantKey (p : PrefillParticipant) : String :=
  jsToLower (jsTrim (if p.label_hebrew ≠ "" then p.label_hebrew else p.label))

/-- Inner loop of `assignReferenceStatus` over one clause's participants,
threading the span-wide first-seen map (Identity Key → clause id of the
first occurrence). -/
def assignList (cid : Nat) :
    List (String × Nat) → List PrefillParticipant →
    List PrefillParticipant × List (String × Nat)
  | seen, [] => ([], seen)
  | seen, p :: ps =>
    let key := normalizeParticipantKey p
    match seen.lookup key with
    | some c0 =>
      let r := assignList cid seen ps
      let st := pv "given" "high" ("seen in clause " ++ toString c0)
      ({ p with reference_status := st } :: r.1, r.2)
    | none =>
      let r := assignList cid ((key, cid) :: seen) ps
      let st := pv "new_mention" "high" "first occurrence"
      ({ p with reference_status := st } :: r.1, r.2)

/-- Outer loop of `assignReferenceStatus` over the span's clauses. -/
def assignClauses :
    List (String × Nat) → List PrefillClauseResult →
    List PrefillClauseResult × List (String × Nat)
  | seen, [] => ([], seen)
  | seen, c :: cs =>
    let r1 := assignList c.clause_id seen c.participants
    let r2 := assignClauses r1.2 cs
    ({ c with participants := r1.1 } :: r2.1, r2.2)

/-- `assignReferenceStatus`: the whole-span reference-status pass (the
in-place mutation of the source made functional). -/
def assignReferenceStatus (clauses : List PrefillClauseResult) :
    List PrefillClauseResult :=
  (assignClauses [] clauses).1

/-- All participants of a span in document order. -/
def flattenParticipants : List PrefillClauseResult → List PrefillParticipant
  | [] => []
  | c :: cs => c.participants ++ flattenParticipants cs

/-- One step of the registry `Map`: insert `p` only if its Identity Key is
not present yet (insertion order at the back, as `Array.from(map.values())`
iterates). -/
def registryInsert (reg : List PrefillParticipant) (p : PrefillParticipant) :
    List PrefillParticipant :=
  if reg.any (fun q => normalizeParticipantKey q == normalizeParticipantKey p)
  then reg else reg ++ [p]

/-- Fold of `registryInsert` over a participant list. -/
def registryAdd : List PrefillParticipant → List PrefillParticipant →
    List PrefillParticipant
  | reg, [] => reg
  | reg, p :: ps => registryAdd (registryInsert reg p) ps

/-- `buildParticipantRegistry`: deduplicated pericope-wide participant list,
first occurrence per Identity Key. -/
def buildParticipantRegistry (clauses : List PrefillClauseResult) :
    List PrefillParticipant :=
  registryAdd [] (flattenParticipants clauses)

/-- `filterVerseRange`. -/
def filterVerseRange (verses : List BHSAEnrichedVerse)
    (startCh startV endCh endV : Nat) : List BHSAEnrichedVerse :=
  verses.filter (fun v =>
    if v.chapter < startCh || v.chapter > endCh then false
    else if v.chapter == startCh && v.verse < startV then false
    else if v.chapter == endCh && v.verse > endV then false
    else true)

/-- `prefillPericope`: the main entry point. -/
def prefillPericope (verses : List BHSAEnrichedVerse) (book : String)
    (startChapter startVerse endChapter endVerse : Nat) : PrefillPericope :=
  let pericope := filterVerseRange verses startChapter startVerse endChapter endVerse
  let allClauses := List.flatten (pericope.map (fun v => v.clauses.map prefillClause))
  let withRef := assignReferenceStatus allClauses
  let registry := buildParticipantRegistry withRef
  { book := book,
    start_chapter := startChapter,
    start_verse := startVerse,
    end_chapter := endChapter,
    end_verse := endVerse,
    clauses := withRef,
    participant_registry := registry }

/-- The reference-status values, in document order, of the participants of a
span whose Identity Key is `k`. -/
def statusSeq (k : String) (l : List PrefillParticipant) : List String :=
  (l.filter (fun p => normalizeParticipantKey p == k)).map
    (fun p => p.reference_status.value)

/-- How many participant mentions of a list carry Identity Key `k`. -/
def keyCount (k : String) (l : List PrefillParticipant) : Nat :=
  (l.filter (fun p => normalizeParticipantKey p == k)).length

/-- One `new_mention` followed by `n` `given`s (empty for zero mentions). -/
def nmRun : Nat → List String
  | 0 => []
  | n + 1 => "new_mention" :: List.replicate n "given"

/-- JS `verb?.vt === "impv"` over the optional main verb. -/
def mainVerbIsImpv (verb : Option BHSAWord) : Bool :=
  match verb with
  | some v => v.vt == "impv"
  | none => false

-- Concrete feature records used by counterexamples and witnesses.

/-- A word record with every string feature empty. -/
def wBlank : BHSAWord :=
  { word_id := 0, text_utf8 := "", lex := "", lex_utf8 := "", gloss := "",
    sp := "", pdp := "", gn := "", nu := "", ps := "", vs := "", vt := "",
    st := "", ls := "", nametype := "", prs := "", prs_gn := "", prs_nu := "",
    prs_ps := "" }

/-- A wayyiqtol form of the be/exist verb `HJH[`. -/
def wHJH : BHSAWord := { wBlank with word_id := 1, sp := "verb", lex := "HJH[", vt := "wayq" }

/-- A predicate phrase containing only `wHJH`. -/
def phPredHJH : BHSAEnrichedPhrase :=
  { phrase_id := 1, function := "Pred", typ := "VP", rela := "", words := [wHJH] }

/-- A temporal noun word. -/
def wDay : BHSAWord :=
  { wBlank with
    word_id := 2, sp := "subs", gloss := "day", lex := "JWM/",
    lex_utf8 := "יום", nu := "pl" }

/-- A temporal phrase. -/
def phTimeDay : BHSAEnrichedPhrase :=
  { phrase_id := 2, function := "Time", typ := "PP", rela := "", words := [wDay] }

/-- A `WayX` (mainline wayyiqtol with explicit subject) clause whose main
verb is `HJH[` and which carries a temporal phrase. -/
def cWayXTime : BHSAEnrichedClause :=
  { clause_id := 7, typ := "WayX", txt := "N", rela := "", domain := "N",
    kind := "VC", hebrew_text := "", transliteration := "", gloss := "",
    phrases := [phPredHJH, phTimeDay], words := [wHJH] }

/-- The same clause with structural type `Way0`. -/
def cWay0Time : BHSAEnrichedClause := { cWayXTime with typ := "Way0" }

/-- The event core extracted from `cWayXTime` and `cWay0Time`. -/
def coreHJH : PrefillEventCore :=
  { lexeme := "HJH[", lexeme_utf8 := "", gloss := "", verbal_stem := "NA",
    verbal_tense := "wayq" }

/-- A quotation clause nested inside narrative: text-domain code `NQ`. -/
def cNQ : BHSAEnrichedClause :=
  { clause_id := 8, typ := "ZQt0", txt := "NQ", rela := "", domain := "Q",
    kind := "VC", hebrew_text := "", transliteration := "", gloss := "",
    phrases := [], words := [] }

/-- A plain quotation clause: text-domain code `Q`. -/
def cQuote : BHSAEnrichedClause := { cNQ with clause_id := 9, txt := "Q" }

/-- A participant whose Hebrew label carries the definite article. -/
def pWithArticle : PrefillParticipant :=
  { id := "p_1", label := "the man", label_hebrew := "האיש",
    type := pv "person" "medium" "sp=nmpr, no nametype",
    quantity := pv "one" "high" "nu=sg",
    reference_status := pv "unset" "low" "pending pericope pass",
    semantic_role := pv "initiator" "medium" "phrase.function=Subj",
    word_id := 1, phrase_function := "Subj" }

/-- The same mention without the definite article. -/
def pWithoutArticle : PrefillParticipant :=
  { pWithArticle with id := "p_2", label := "man", label_hebrew := "איש", word_id := 2 }

/-- A clause with no verb anywhere and an unmapped lexeme among its words. -/
def cNoVerb : BHSAEnrichedClause :=
  { clause_id := 3, typ := "NmCl", txt := "N", rela := "", domain := "N",
    kind := "NC", hebrew_text := "", transliteration := "", gloss := "",
    phrases := [{ phrase_id := 4, function := "Subj", typ := "NP", rela := "",
                  words := [wDay] }],
    words := [wDay] }

/-- A verb whose lexeme is absent from the event-category table. -/
def wUnmapped : BHSAWord :=
  { wBlank with word_id := 6, sp := "verb", lex := "ZZZ[", vt := "perf" }

/-- A verbal clause whose main verb has no event-category table entry. -/
def cUnmappedVerb : BHSAEnrichedClause :=
  { clause_id := 4, typ := "XQtl", txt := "N", rela := "", domain := "N",
    kind := "VC", hebrew_text := "", transliteration := "", gloss := "",
    phrases := [{ phrase_id := 5, function := "Pred", typ := "VP", rela := "",
                  words := [wUnmapped] }],
    words := [wUnmapped] }

/-- A proper-noun word (predicate complement of a verbless clause). -/
def wName : BHSAWord :=
  { wBlank with
    word_id := 7, sp := "nmpr", gloss := "Elimelech",
    lex := ">LJMLK/", lex_utf8 := "אלימלך", nametype := "pers", nu := "sg" }

/-- A predicate-complement phrase headed by a proper noun. -/
def phPreCName : BHSAEnrichedPhrase :=
  { phrase_id := 6, function := "PreC", typ := "NP", rela := "", words := [wName] }

/-- A verbless (nominal) clause whose predicate complement is a proper noun. -/
def cVerbless : BHSAEnrichedClause :=
  { clause_id := 5, typ := "NmCl", txt := "N", rela := "", domain := "N",
    kind := "NC", hebrew_text := "", transliteration := "", gloss := "",
    phrases := [phPreCName], words := [wName] }

/-- A common-noun subject word. -/
def wMan : BHSAWord :=
  { wBlank with
    word_id := 5, sp := "subs", gloss := "man", lex := ">JC/",
    lex_utf8 := "איש", nu := "sg" }

/-- A subject phrase containing `wMan`. -/
def phSubjMan : BHSAEnrichedPhrase :=
  { phrase_id := 3, function := "Subj", typ := "NP", rela := "", words := [wMan] }

/-- A small narrative clause with one participant. -/
def cSmall : BHSAEnrichedClause :=
  { clause_id := 1, typ := "WayX", txt := "N", rela := "", domain := "N",
    kind := "VC", hebrew_text := "", transliteration := "", gloss := "",
    phrases := [phSubjMan], words := [wMan] }

/-- A one-clause verse wrapping `cSmall`. -/
def vSmall : BHSAEnrichedVerse := { chapter := 1, verse := 1, clauses := [cSmall] }

/-- A concrete one-clause span of classification results. -/
def csSmall : List PrefillClauseResult := [prefillClause cSmall]

/-- The event core extracted from `cUnmappedVerb`. -/
def coreZZZ : PrefillEventCore :=
  { lexeme := "ZZZ[", lexeme_utf8 := "", gloss := "", verbal_stem := "NA",
    verbal_tense := "perf" }

/-- The participant record extracted from `cSmall`. -/
def pManEntry : PrefillParticipant := mkWordParticipant phSubjMan wMan

/-- The same record after the reference-status pass marks it a new mention. -/
def pManNew : PrefillParticipant :=
  { pManEntry with reference_status := pv "new_mention" "high" "first occurrence" }

/-- C9: the pericope pre-fill entry point is deterministic — two invocations
on the same verse list, book name and chapter/verse bounds produce identical
Span Results; the embedding is a pure function of exactly these arguments, so
there is no shared state between invocations. -/
theorem prefillPericope_deterministic (verses : List BHSAEnrichedVerse)
    (book : String) (sc sv ec ev : Nat) :
    prefillPericope verses book sc sv ec ev = prefillPericope verses book sc sv ec ev := rfl

/-- C3 (evidence for the code bug): the Identity Key only trims and
case-folds; it does not strip the leading definite article, so the mention
labelled with the article and the one without it get different keys. -/
theorem normalizeParticipantKey_keeps_definite_article :
    pWithArticle.label_hebrew = "האיש" ∧ pWithoutArticle.label_hebrew = "איש" ∧
    normalizeParticipantKey pWithArticle ≠ normalizeParticipantKey pWithoutArticle := by
  decide

/-- C4 (counterexample): `cWayXTime` is mainline-narrative-typed (its clause
type maps to `mainline` in the discourse-function table), its main predicate
lexeme is the be/exist verb, and it carries a temporal phrase — yet the
classifier returns STATE, not META. -/
theorem inferEventCategory_WayX_not_META :
    DISCOURSE_FUNCTION_MAP cWayXTime.typ = some ("mainline", "high") ∧
    cWayXTime.phrases.any (fun p => p.function == "Time") = true ∧
    extractEventCore cWayXTime = some coreHJH ∧
    coreHJH.lexeme = "HJH[" ∧
    inferEventCategory cWayXTime (extractEventCore cWayXTime) =
      some (pv "STATE" "medium" "HJH default → STATE") ∧
    (inferEventCategory cWayXTime (extractEventCore cWayXTime)).map
      (fun v => v.value) ≠ some "META" := by
  decide

/-- C4 (amended): for a clause whose main predicate lexeme is `HJH[`, the
classifier returns META at medium confidence exactly when the clause's
structural type is `Way0` (wayyiqtol without explicit subject) and a temporal
phrase is present, and STATE at medium confidence otherwise — never the high
confidence of ordinary table hits. -/
theorem inferEventCategory_HJH_way0_only (c : BHSAEnrichedClause)
    (core : PrefillEventCore) (h : extractEventCore c = some core)
    (hl : core.lexeme = "HJH[") :
    inferEventCategory c (extractEventCore c) =
      if c.typ == "Way0" ∧ c.phrases.any (fun p => p.function == "Time") then
        some (pv "META" "medium" "HJH + Way0 + Time phrase → META frame-opener")
      else some (pv "STATE" "medium" "HJH default → STATE") := by
  rw [h]
  obtain ⟨lx, l8, gl, vsx, vtx⟩ := core
  simp only at hl
  subst hl
  simp [inferEventCategory, VERB_EVENT_CATEGORY]

/-- C4 (witness): the amended statement evaluated on the `Way0` variant. -/
theorem inferEventCategory_HJH_way0_only_witness :
    inferEventCategory cWay0Time (extractEventCore cWay0Time) =
      if cWay0Time.typ == "Way0" ∧ cWay0Time.phrases.any (fun p => p.function == "Time") then
        some (pv "META" "medium" "HJH + Way0 + Time phrase → META frame-opener")
      else some (pv "STATE" "medium" "HJH default → STATE") :=
  inferEventCategory_HJH_way0_only cWay0Time coreHJH (by decide) (by decide)

/-- C6: polarity is total — its value is `negative` at high confidence
exactly when some word's bracket-stripped lexeme lies in the fixed
negation-particle set, and `positive` at high confidence otherwise. -/
theorem inferModifiers_polarity_total (c : BHSAEnrichedClause) :
    ((inferModifiers c).polarity.value = "negative" ∨
       (inferModifiers c).polarity.value = "positive") ∧
    ((inferModifiers c).polarity.value = "negative" ↔
       ∃ w ∈ c.words, stripBrackets w.lex ∈ NEGATION_LEXEMES) ∧
    ((inferModifiers c).polarity.value = "positive" ↔
       ¬ ∃ w ∈ c.words, stripBrackets w.lex ∈ NEGATION_LEXEMES) ∧
    (inferModifiers c).polarity.confidence = "high" := by
  unfold inferModifiers
  by_cases h : ∃ w ∈ c.words, stripBrackets w.lex ∈ NEGATION_LEXEMES
  · have hb : c.words.any (fun w => NEGATION_LEXEMES.contains (stripBrackets w.lex)) = true := by
      simp only [List.any_eq_true]
      obtain ⟨w, hw, hmem⟩ := h
      exact ⟨w, hw, List.elem_iff.2 hmem⟩
    simp [hb, pv, h]
  · have hb : c.words.any (fun w => NEGATION_LEXEMES.contains (stripBrackets w.lex)) = false := by
      simp only [List.any_eq_false]
      intro w hw
      simp only [List.elem_iff] at *
      intro hmem
      exact h ⟨w, hw, hmem⟩
    simp [hb, pv, h]

/-- C7: the classifier abstains — a clause with no verb anywhere has a null
event core (and hence null category), and a main verb whose lexeme is absent
from the lexeme→category table yields a null category; null is never replaced
by a default value. -/
theorem inferEventCategory_abstains (c : BHSAEnrichedClause) :
    ((∀ w ∈ c.words, w.sp ≠ "verb") →
     (∀ ph ∈ c.phrases, ∀ w ∈ ph.words, w.sp ≠ "verb") →
       extractEventCore c = none ∧ inferEventCategory c (extractEventCore c) = none) ∧
    (∀ core, extractEventCore c = some core → VERB_EVENT_CATEGORY core.lexeme = none →
       inferEventCategory c (extractEventCore c) = none) := by
  constructor
  · intro hw hph
    have hcore : extractEventCore c = none := by
      unfold extractEventCore
      have hcw : c.words.find? (fun w => w.sp == "verb") = none := by
        rw [List.find?_eq_none]
        intro w hwm
        simpa using hw w hwm
      cases hp : c.phrases.find? (fun p => p.function == "Pred" || p.function == "PreO") with
      | none => simp [hp, hcw]
      | some ph =>
        have hpm : ph ∈ c.phrases := List.mem_of_find?_eq_some hp
        have hpw : ph.words.find? (fun w => w.sp == "verb") = none := by
          rw [List.find?_eq_none]
          intro w hwm
          simpa using hph ph hpm w hwm
        simp [hp, hpw, hcw]
    rw [hcore]
    exact ⟨rfl, rfl⟩
  · intro core hcore hcat
    rw [hcore]
    unfold inferEventCategory
    obtain ⟨lx, l8, gl, vsx, vtx⟩ := core
    simp only at hcat
    simp [hcat]

/-- C7 (witness): a verbless clause and a clause with an unmapped verb
lexeme, both yielding null. -/
theorem inferEventCategory_abstains_witness :
    (extractEventCore cNoVerb = none ∧
       inferEventCategory cNoVerb (extractEventCore cNoVerb) = none) ∧
    inferEventCategory cUnmappedVerb (extractEventCore cUnmappedVerb) = none :=
  ⟨(inferEventCategory_abstains cNoVerb).1 (by decide) (by decide),
   (inferEventCategory_abstains cUnmappedVerb).2 coreZZZ (by decide) (by decide)⟩

/-- C8 (counterexample): the clause with text-domain code `NQ` is
quotation-embedded (its code contains `Q`), yet the time-frame classifier
returns `retrospective` at high confidence, not `not_specified` at low. -/
theorem inferTimeFrame_embedded_quote_counterexample :
    jsIncludesChar cNQ.txt 'Q' = true ∧
    inferTimeFrame cNQ (cNQ.words.find? (fun w => w.sp == "verb")) =
      some (pv "retrospective" "high" "txt starts with N (narrative)") ∧
    inferTimeFrame cNQ (cNQ.words.find? (fun w => w.sp == "verb")) ≠
      some (pv "not_specified" "low" "txt includes Q — ambiguous") := by
  decide

/-- C8 (amended): time-frame routing in the code's order — a text code whose
first character is the narrative code yields retrospective (high); otherwise
an imperative main verb yields prospective (high); otherwise a code containing
the quotation code yields not_specified (low); otherwise null.  A
quotation-embedded clause receives not_specified only when neither earlier
rule fired. -/
theorem inferTimeFrame_cases (c : BHSAEnrichedClause) (v : Option BHSAWord) :
    (c.txt.data.head? = some 'N' →
       inferTimeFrame c v = some (pv "retrospective" "high" "txt starts with N (narrative)")) ∧
    (c.txt.data.head? ≠ some 'N' → mainVerbIsImpv v = true →
       inferTimeFrame c v = some (pv "prospective" "high" "vt=impv")) ∧
    (c.txt.data.head? ≠ some 'N' → mainVerbIsImpv v = false → jsIncludesChar c.txt 'Q' = true →
       inferTimeFrame c v = some (pv "not_specified" "low" "txt includes Q — ambiguous")) ∧
    (c.txt.data.head? ≠ some 'N' → mainVerbIsImpv v = false → jsIncludesChar c.txt 'Q' = false →
       inferTimeFrame c v = none) := by
  unfold inferTimeFrame mainVerbIsImpv
  refine ⟨fun h1 => ?_, fun h1 h2 => ?_, fun h1 h2 h3 => ?_, fun h1 h2 h3 => ?_⟩
  · simp [h1]
  · cases v with
    | none => simp at h2
    | some w => simp_all
  · cases v with
    | none => simp_all
    | some w => simp_all
  · cases v with
    | none => simp_all
    | some w => simp_all

/-- C8 (witness): a plain quotation clause with no narrative prefix and no
verb gets not_specified at low confidence. -/
theorem inferTimeFrame_cases_witness :
    inferTimeFrame cQuote none =
      some (pv "not_specified" "low" "txt includes Q — ambiguous") :=
  (inferTimeFrame_cases cQuote none).2.2.1 (by decide) (by decide) (by decide)

/-- C5: routing of verbless clauses (nominal structural type, or nominal or
adjectival kind) — no predicate-complement phrase or no head word defaults to
classification (medium); a proper-noun head gives identification (high), an
adjective head attribution (high), an otherwise-gentilic head classification
(high), and any other head classification (medium) with the explicit default
basis. -/
theorem inferClauseType_verbless (c : BHSAEnrichedClause)
    (hv : c.typ = "NmCl" ∨ c.kind = "NC" ∨ c.kind = "AjCl") :
    (c.phrases.find? (fun p => p.function == "PreC" || p.function == "PreS") = none →
       inferClauseType c = pv "classification" "medium" ("typ=" ++ c.typ)) ∧
    (∀ ph, c.phrases.find? (fun p => p.function == "PreC" || p.function == "PreS") = some ph →
      (findHeadNoun ph = none →
         inferClauseType c = pv "classification" "medium" ("typ=" ++ c.typ)) ∧
      (∀ w, findHeadNoun ph = some w →
        (w.sp = "nmpr" → inferClauseType c = pv "identification" "high" "PreC head is nmpr") ∧
        (w.sp = "adjv" → inferClauseType c = pv "attribution" "high" "PreC head is adjv") ∧
        (w.sp ≠ "nmpr" → w.sp ≠ "adjv" → w.nametype = "gntl" →
           inferClauseType c = pv "classification" "high" "PreC head is gntl") ∧
        (w.sp ≠ "nmpr" → w.sp ≠ "adjv" → w.nametype ≠ "gntl" →
           inferClauseType c = pv "classification" "medium" ("typ=" ++ c.typ ++ " default")))) := by
  have hcond : (c.typ == "NmCl" || c.kind == "NC" || c.kind == "AjCl") = true := by
    rcases hv with h | h | h <;> simp [h]
  constructor
  · intro hnone
    unfold inferClauseType
    simp [hcond, hnone]
  · intro ph hph
    constructor
    · intro hnohead
      unfold inferClauseType
      simp [hcond, hph, hnohead]
    · intro w hw
      refine ⟨fun h1 => ?_, fun h1 => ?_, fun h1 h2 h3 => ?_, fun h1 h2 h3 => ?_⟩ <;>
        unfold inferClauseType <;>
        simp_all [hcond, hph, hw]

/-- C5 (witness): a nominal clause whose predicate complement is headed by a
proper noun is routed to identification at high confidence. -/
theorem inferClauseType_verbless_witness :
    inferClauseType cVerbless = pv "identification" "high" "PreC head is nmpr" :=
  ((((inferClauseType_verbless cVerbless (by decide)).2 phPreCName (by decide)).2
      wName (by decide)).1 (by decide))


theorem lookup_cons (k key : String) (v : Nat) (l : List (String × Nat)) :
    ((key, v) :: l).lookup k = if k == key then some v else l.lookup k := by
  cases h : k == key <;> simp [List.lookup, h]

@[simp]
theorem normalizeKey_set_status (p : PrefillParticipant) (st : PrefillValue String) :
    normalizeParticipantKey { p with reference_status := st } =
      normalizeParticipantKey p := rfl

theorem assignList_fst_keys (cid : Nat) (seen : List (String × Nat))
    (ps : List PrefillParticipant) :
    (assignList cid seen ps).1.map normalizeParticipantKey =
      ps.map normalizeParticipantKey := by
  induction ps generalizing seen with
  | nil => rfl
  | cons p rest ih =>
    unfold assignList
    cases h : seen.lookup (normalizeParticipantKey p) <;> simp [h, ih]

theorem assignList_snd_lookup_none (cid : Nat) (seen : List (String × Nat))
    (ps : List PrefillParticipant) (k : String) :
    (assignList cid seen ps).2.lookup k = none ↔
      (seen.lookup k = none ∧ ∀ p ∈ ps, normalizeParticipantKey p ≠ k) := by
  induction ps generalizing seen with
  | nil => simp [assignList]
  | cons p rest ih =>
    unfold assignList
    cases h : seen.lookup (normalizeParticipantKey p) with
    | some c0 =>
      simp only [h]
      rw [ih]
      constructor
      · rintro ⟨h1, h2⟩
        refine ⟨h1, fun q hq => ?_⟩
        rcases List.mem_cons.1 hq with rfl | hq
        · intro hk
          rw [hk, h1] at h
          exact Option.noConfusion h
        · exact h2 q hq
      · rintro ⟨h1, h2⟩
        exact ⟨h1, fun q hq => h2 q (List.mem_cons_of_mem _ hq)⟩
    | none =>
      simp only [h]
      rw [ih, lookup_cons]
      by_cases hk : k = normalizeParticipantKey p
      · constructor
        · rintro ⟨h1, _⟩
          rw [if_pos (beq_iff_eq.2 hk)] at h1
          exact absurd h1 (by simp)
        · rintro ⟨_, h2⟩
          exact absurd hk.symm (h2 p (List.mem_cons_self p rest))
      · rw [if_neg (by simpa using hk)]
        constructor
        · rintro ⟨h1, h2⟩
          refine ⟨h1, fun q hq => ?_⟩
          rcases List.mem_cons.1 hq with rfl | hq
          · exact fun hc => hk hc.symm
          · exact h2 q hq
        · rintro ⟨h1, h2⟩
          exact ⟨h1, fun q hq => h2 q (List.mem_cons_of_mem _ hq)⟩

theorem statusSeq_cons_hit (k : String) (p : PrefillParticipant)
    (l : List PrefillParticipant) (h : normalizeParticipantKey p = k) :
    statusSeq k (p :: l) = p.reference_status.value :: statusSeq k l := by
  simp [statusSeq, h]

theorem statusSeq_cons_miss (k : String) (p : PrefillParticipant)
    (l : List PrefillParticipant) (h : normalizeParticipantKey p ≠ k) :
    statusSeq k (p :: l) = statusSeq k l := by
  simp [statusSeq, h]

theorem keyCount_cons_hit (k : String) (p : PrefillParticipant)
    (l : List PrefillParticipant) (h : normalizeParticipantKey p = k) :
    keyCount k (p :: l) = keyCount k l + 1 := by
  simp [keyCount, h]

theorem keyCount_cons_miss (k : String) (p : PrefillParticipant)
    (l : List PrefillParticipant) (h : normalizeParticipantKey p ≠ k) :
    keyCount k (p :: l) = keyCount k l := by
  simp [keyCount, h]

theorem statusSeq_append (k : String) (l₁ l₂ : List PrefillParticipant) :
    statusSeq k (l₁ ++ l₂) = statusSeq k l₁ ++ statusSeq k l₂ := by
  simp [statusSeq, List.filter_append]

theorem keyCount_append (k : String) (l₁ l₂ : List PrefillParticipant) :
    keyCount k (l₁ ++ l₂) = keyCount k l₁ + keyCount k l₂ := by
  simp [keyCount, List.filter_append]

theorem keyCount_eq_zero (k : String) (l : List PrefillParticipant) :
    keyCount k l = 0 ↔ ∀ p ∈ l, normalizeParticipantKey p ≠ k := by
  simp [keyCount, List.length_eq_zero, List.filter_eq_nil_iff]

theorem assignList_statusSeq (cid : Nat) (seen : List (String × Nat))
    (ps : List PrefillParticipant) (k : String) :
    statusSeq k (assignList cid seen ps).1 =
      if (seen.lookup k).isSome then List.replicate (keyCount k ps) "given"
      else nmRun (keyCount k ps) := by
  induction ps generalizing seen with
  | nil => simp [assignList, statusSeq, keyCount, nmRun]
  | cons p rest ih =>
    unfold assignList
    cases h : seen.lookup (normalizeParticipantKey p) with
    | some c0 =>
      simp only [h]
      by_cases hk : normalizeParticipantKey p = k
      · have hs : (seen.lookup k).isSome := by rw [← hk, h]; rfl
        rw [statusSeq_cons_hit k _ _ (by simpa using hk)]
        rw [keyCount_cons_hit k p rest hk]
        rw [ih seen, if_pos hs, if_pos hs]
        simp [pv, List.replicate_succ]
      · rw [statusSeq_cons_miss k _ _ (by simpa using hk)]
        rw [keyCount_cons_miss k p rest hk]
        exact ih seen
    | none =>
      simp only [h]
      by_cases hk : normalizeParticipantKey p = k
      · have hs : seen.lookup k = none := by rw [← hk]; exact h
        have hs' : (((normalizeParticipantKey p, cid) :: seen).lookup k).isSome := by
          rw [lookup_cons, if_pos (beq_iff_eq.2 hk.symm)]; rfl
        rw [statusSeq_cons_hit k _ _ (by simpa using hk)]
        rw [keyCount_cons_hit k p rest hk]
        rw [ih ((normalizeParticipantKey p, cid) :: seen), if_pos hs']
        rw [if_neg (by simp [hs])]
        simp [pv, nmRun]
      · have hsame : ((normalizeParticipantKey p, cid) :: seen).lookup k = seen.lookup k := by
          rw [lookup_cons, if_neg (by simpa using fun hc => hk hc.symm)]
        rw [statusSeq_cons_miss k _ _ (by simpa using hk)]
        rw [keyCount_cons_miss k p rest hk]
        rw [ih ((normalizeParticipantKey p, cid) :: seen), hsame]

theorem assignClauses_statusSeq (seen : List (String × Nat))
    (cs : List PrefillClauseResult) (k : String) :
    statusSeq k (flattenParticipants (assignClauses seen cs).1) =
      if (seen.lookup k).isSome then
        List.replicate (keyCount k (flattenParticipants cs)) "given"
      else nmRun (keyCount k (flattenParticipants cs)) := by
  induction cs generalizing seen with
  | nil => simp [assignClauses, flattenParticipants, statusSeq, keyCount, nmRun]
  | cons c rest ih =>
    unfold assignClauses
    simp only [flattenParticipants, statusSeq_append, keyCount_append]
    rw [assignList_statusSeq, ih]
    by_cases hs : (seen.lookup k).isSome
    · have hs' : (((assignList c.clause_id seen c.participants).2).lookup k).isSome := by
        rcases ho : ((assignList c.clause_id seen c.participants).2).lookup k with _ | v
        · rcases (assignList_snd_lookup_none c.clause_id seen c.participants k).1 ho with ⟨h1, _⟩
          rw [h1] at hs
          exact absurd hs (by simp)
        · rfl
      rw [if_pos hs, if_pos hs, if_pos hs']
      rw [← List.replicate_add]
    · rw [if_neg hs, if_neg hs]
      rcases hz : keyCount k c.participants with _ | m
      · have hnone : ((assignList c.clause_id seen c.participants).2).lookup k = none := by
          rw [assignList_snd_lookup_none]
          refine ⟨?_, (keyCount_eq_zero k c.participants).1 hz⟩
          rcases ho : seen.lookup k with _ | v
          · rfl
          · rw [ho] at hs; exact absurd rfl hs
        rw [hnone]
        simp [nmRun]
      · have hsome : (((assignList c.clause_id seen c.participants).2).lookup k).isSome := by
          rcases ho : ((assignList c.clause_id seen c.participants).2).lookup k with _ | v
          · rcases (assignList_snd_lookup_none c.clause_id seen c.participants k).1 ho with ⟨_, h2⟩
            have : keyCount k c.participants = 0 := (keyCount_eq_zero k c.participants).2 h2
            rw [hz] at this
            exact absurd this (Nat.succ_ne_zero m)
          · rfl
        rw [if_pos hsome]
        simp only [nmRun]
        rw [List.cons_append, ← List.replicate_add]
        rw [show m + 1 + keyCount k (flattenParticipants rest) =
              (m + keyCount k (flattenParticipants rest)) + 1 from by omega]

/-- C1: across an ordered span, for every Identity Key, the sequence of
reference-status values assigned by the reference resolver to that key's
mentions, in document order, is empty when the key does not occur and
otherwise exactly one `new_mention` followed by `given` for every later
occurrence. -/
theorem assignReferenceStatus_monotone (cs : List PrefillClauseResult) (k : String) :
    statusSeq k (flattenParticipants (assignReferenceStatus cs)) =
      if keyCount k (flattenParticipants cs) = 0 then []
      else "new_mention" ::
        List.replicate (keyCount k (flattenParticipants cs) - 1) "given" := by
  unfold assignReferenceStatus
  rw [assignClauses_statusSeq]
  rcases hz : keyCount k (flattenParticipants cs) with _ | m
  · simp [nmRun]
  · simp [nmRun]

theorem assignList_find_first (cid : Nat) (seen : List (String × Nat))
    (ps : List PrefillParticipant) (k : String) (h : seen.lookup k = none) :
    (assignList cid seen ps).1.find? (fun q => normalizeParticipantKey q == k) =
      (ps.find? (fun q => normalizeParticipantKey q == k)).map
        (fun q => { q with
          reference_status := pv "new_mention" "high" "first occurrence" }) := by
  induction ps generalizing seen with
  | nil => simp [assignList]
  | cons p rest ih =>
    unfold assignList
    cases hl : seen.lookup (normalizeParticipantKey p) with
    | some c0 =>
      simp only [hl]
      by_cases hk : normalizeParticipantKey p = k
      · rw [hk, h] at hl
        exact Option.noConfusion hl
      · rw [List.find?_cons_of_neg _ (by simpa using hk)]
        rw [List.find?_cons_of_neg _ (by simpa using hk)]
        exact ih seen h
    | none =>
      simp only [hl]
      by_cases hk : normalizeParticipantKey p = k
      · rw [List.find?_cons_of_pos _ (by simpa using hk)]
        rw [List.find?_cons_of_pos _ (by simpa using hk)]
        rfl
      · rw [List.find?_cons_of_neg _ (by simpa using hk)]
        rw [List.find?_cons_of_neg _ (by simpa using hk)]
        refine ih ((normalizeParticipantKey p, cid) :: seen) ?_
        rw [lookup_cons, if_neg (by simpa using fun hc => hk hc.symm)]
        exact h

theorem assignClauses_find_first (seen : List (String × Nat))
    (cs : List PrefillClauseResult) (k : String) (h : seen.lookup k = none) :
    (flattenParticipants (assignClauses seen cs).1).find?
        (fun q => normalizeParticipantKey q == k) =
      ((flattenParticipants cs).find? (fun q => normalizeParticipantKey q == k)).map
        (fun q => { q with
          reference_status := pv "new_mention" "high" "first occurrence" }) := by
  induction cs generalizing seen with
  | nil => simp [assignClauses, flattenParticipants]
  | cons c rest ih =>
    unfold assignClauses
    simp only [flattenParticipants, List.find?_append]
    rw [assignList_find_first c.clause_id seen c.participants k h]
    cases hf : c.participants.find? (fun q => normalizeParticipantKey q == k) with
    | some q => simp
    | none =>
      simp only [Option.map_none, Option.none_or]
      refine ih (assignList c.clause_id seen c.participants).2 ?_
      rw [assignList_snd_lookup_none]
      refine ⟨h, fun q hq hk => ?_⟩
      have := List.find?_eq_none.1 hf q hq
      simp [hk] at this

theorem registryInsert_sub (reg : List PrefillParticipant) (x q : PrefillParticipant)
    (h : q ∈ reg) : q ∈ registryInsert reg x := by
  unfold registryInsert
  split
  · exact h
  · exact List.mem_append_left _ h

theorem registryAdd_mem (l : List PrefillParticipant) :
    ∀ reg p, p ∈ registryAdd reg l →
      p ∈ reg ∨ ((∀ q ∈ reg, normalizeParticipantKey q ≠ normalizeParticipantKey p) ∧
        l.find? (fun q => normalizeParticipantKey q == normalizeParticipantKey p) = some p) := by
  induction l with
  | nil => intro reg p hp; exact Or.inl hp
  | cons x xs ih =>
    intro reg p hp
    rcases ih (registryInsert reg x) p hp with hi | ⟨hnone, hfind⟩
    · by_cases hany : reg.any (fun q =>
          normalizeParticipantKey q == normalizeParticipantKey x) = true
      · unfold registryInsert at hi
        rw [if_pos hany] at hi
        exact Or.inl hi
      · unfold registryInsert at hi
        rw [if_neg hany] at hi
        rcases List.mem_append.1 hi with hi | hi
        · exact Or.inl hi
        · rw [List.mem_singleton] at hi
          subst hi
          refine Or.inr ⟨fun q hq hk => ?_, ?_⟩
          · exact hany (List.any_eq_true.2 ⟨q, hq, beq_iff_eq.2 hk⟩)
          · rw [List.find?_cons_of_pos _ (by simp)]
    · have hx : normalizeParticipantKey x ≠ normalizeParticipantKey p := by
        by_cases hxin : reg.any (fun q =>
            normalizeParticipantKey q == normalizeParticipantKey x) = true
        · rcases List.any_eq_true.1 hxin with ⟨q, hq, hqb⟩
          have hq' : q ∈ registryInsert reg x := registryInsert_sub reg x q hq
          intro hc
          exact hnone q hq' (by rw [beq_iff_eq.1 hqb, hc])
        · have : x ∈ registryInsert reg x := by
            unfold registryInsert
            rw [if_neg hxin]
            exact List.mem_append_right _ (List.mem_singleton.2 rfl)
          exact hnone x this
      refine Or.inr ⟨fun q hq => hnone q (registryInsert_sub reg x q hq), ?_⟩
      rw [List.find?_cons_of_neg _ (by simpa using hx)]
      exact hfind

theorem registryInsert_nodup (reg : List PrefillParticipant) (x : PrefillParticipant)
    (h : (reg.map normalizeParticipantKey).Nodup) :
    ((registryInsert reg x).map normalizeParticipantKey).Nodup := by
  unfold registryInsert
  split
  · exact h
  · next hany =>
    rw [List.map_append, List.map_singleton]
    refine List.Nodup.append h (List.nodup_singleton _) ?_
    intro a ha hb
    rw [List.mem_singleton] at hb
    subst hb
    rcases List.mem_map.1 ha with ⟨q, hq, hqk⟩
    exact hany (List.any_eq_true.2 ⟨q, hq, beq_iff_eq.2 hqk⟩)

theorem registryAdd_nodup (l : List PrefillParticipant) :
    ∀ reg, (reg.map normalizeParticipantKey).Nodup →
      ((registryAdd reg l).map normalizeParticipantKey).Nodup := by
  induction l with
  | nil => intro reg h; exact h
  | cons x xs ih => intro reg h; exact ih _ (registryInsert_nodup reg x h)

theorem registryInsert_keys_mem (reg : List PrefillParticipant)
    (x : PrefillParticipant) (k : String) :
    k ∈ (registryInsert reg x).map normalizeParticipantKey ↔
      k ∈ reg.map normalizeParticipantKey ∨ k = normalizeParticipantKey x := by
  unfold registryInsert
  split
  · next hany =>
    constructor
    · exact fun h => Or.inl h
    · rintro (h | h)
      · exact h
      · subst h
        rcases List.any_eq_true.1 hany with ⟨q, hq, hqb⟩
        exact List.mem_map.2 ⟨q, hq, beq_iff_eq.1 hqb⟩
  · rw [List.map_append, List.map_singleton, List.mem_append, List.mem_singleton]

theorem registryAdd_keys_mem (l : List PrefillParticipant) :
    ∀ reg k, k ∈ (registryAdd reg l).map normalizeParticipantKey ↔
      (k ∈ reg.map normalizeParticipantKey ∨ k ∈ l.map normalizeParticipantKey) := by
  induction l with
  | nil => intro reg k; simp [registryAdd]
  | cons x xs ih =>
    intro reg k
    unfold registryAdd
    rw [ih, registryInsert_keys_mem]
    simp only [List.map_cons, List.mem_cons]
    tauto

/-- C2: for every ordered span, the registry has pairwise-distinct Identity
Keys, covers exactly the keys occurring among the span's participants (hence
one entry per distinct key, with size equal to the number of distinct keys),
each entry equals the first participant mention with its key in document
order, and re-running the builder on the same ordered input yields an
identical registry. -/
theorem buildParticipantRegistry_spec (cs : List PrefillClauseResult) :
    ((buildParticipantRegistry cs).map normalizeParticipantKey).Nodup ∧
    (∀ k, k ∈ (buildParticipantRegistry cs).map normalizeParticipantKey ↔
       k ∈ (flattenParticipants cs).map normalizeParticipantKey) ∧
    (buildParticipantRegistry cs).length =
      ((flattenParticipants cs).map normalizeParticipantKey).dedup.length ∧
    (∀ p ∈ buildParticipantRegistry cs,
       (flattenParticipants cs).find?
         (fun q => normalizeParticipantKey q == normalizeParticipantKey p) = some p) ∧
    buildParticipantRegistry cs = buildParticipantRegistry cs := by
  have hnd : ((buildParticipantRegistry cs).map normalizeParticipantKey).Nodup :=
    registryAdd_nodup (flattenParticipants cs) [] (by simp)
  have hmem : ∀ k, k ∈ (buildParticipantRegistry cs).map normalizeParticipantKey ↔
      k ∈ (flattenParticipants cs).map normalizeParticipantKey := by
    intro k
    rw [buildParticipantRegistry, registryAdd_keys_mem]
    simp
  refine ⟨hnd, hmem, ?_, ?_, rfl⟩
  · rw [← List.length_map (buildParticipantRegistry cs) normalizeParticipantKey]
    refine ((List.perm_ext_iff_of_nodup hnd (List.nodup_dedup _)).2 ?_).length_eq
    intro a
    rw [hmem a, List.mem_dedup]
  · intro p hp
    rcases registryAdd_mem (flattenParticipants cs) [] p hp with h | ⟨_, hf⟩
    · simp at h
    · exact hf

/-- C2 (witness): on the one-clause concrete span, the registry entry for
the lone participant is the first (only) mention with its key. -/
theorem buildParticipantRegistry_spec_witness :
    (flattenParticipants csSmall).find?
      (fun q => normalizeParticipantKey q == normalizeParticipantKey pManEntry) =
      some pManEntry :=
  (buildParticipantRegistry_spec csSmall).2.2.2.1 pManEntry (by decide)

/-- C10: every entry of the participant registry returned by the pericope
pre-fill entry point carries reference status `new_mention` at high
confidence with basis `first occurrence`. -/
theorem prefillPericope_registry_new_mention (verses : List BHSAEnrichedVerse)
    (book : String) (sc sv ec ev : Nat) :
    ∀ p ∈ (prefillPericope verses book sc sv ec ev).participant_registry,
      p.reference_status = pv "new_mention" "high" "first occurrence" := by
  intro p hp
  have hp' : p ∈ registryAdd []
      (flattenParticipants (assignClauses []
        (List.flatten ((filterVerseRange verses sc sv ec ev).map
          (fun v => v.clauses.map prefillClause)))).1) := hp
  rcases registryAdd_mem _ [] p hp' with h | ⟨_, hfind⟩
  · simp at h
  · rw [assignClauses_find_first [] _ (normalizeParticipantKey p) rfl] at hfind
    rcases hmap : (flattenParticipants (List.flatten
        ((filterVerseRange verses sc sv ec ev).map
          (fun v => v.clauses.map prefillClause)))).find?
        (fun q => normalizeParticipantKey q == normalizeParticipantKey p) with _ | q
    · rw [hmap] at hfind
      simp at hfind
    · rw [hmap] at hfind
      rw [Option.map_some'] at hfind
      have hq := Option.some.inj hfind
      rw [← hq]

/-- C10 (witness): the concrete one-clause pericope's registry entry. -/
theorem prefillPericope_registry_new_mention_witness :
    pManNew.reference_status = pv "new_mention" "high" "first occurrence" :=
  prefillPericope_registry_new_mention [vSmall] "Ruth" 1 1 1 1 pManNew (by decide)

end MeaningMap
